import Mathlib

/-!
# go-ha-lainn: the switch-to-light dispatcher of `halainn.go`

A shallow embedding of the message loop of `main` in `src/halainn.go`:

* the regular expression `reSwitchCmd` (line 49) as a syntax tree, with a
  backtracking matcher giving the leftmost-first semantics of Go's
  `regexp.FindStringSubmatch`;
* the two Go maps `switchToLight` and `lightState` as association lists with
  the semantics of Go map assignment and of the comma-ok lookup;
* one iteration of the `case p := <-incoming` branch as the function `handle`,
  returning the new `lightState` and the effects it performed, in order;
* the loop itself as `messageLoop`.

Go values of type `string` are `String`; the payload, a Go `[]byte`, is a
`List UInt8`.  A string literal compared with `string(payload)` stands for its
UTF-8 bytes.
-/

namespace HaLainn

/-! ## Regular expressions (the fragment used by `reSwitchCmd`) -/

/-- Syntax of the regular expressions needed for line 49: the anchors `^` and
`$`, a literal string, a negated one-character class `[^c]`, concatenation,
the greedy `+`, and a numbered capturing group. -/
inductive Regex where
  | bol : Regex
  | eol : Regex
  | lit (s : List Char) : Regex
  | notChar (c : Char) : Regex
  | cat (r s : Regex) : Regex
  | plus (r : Regex) : Regex
  | group (i : Nat) (r : Regex) : Regex
  deriving Repr

/-- Matcher state: the offset reached in the text, the text still to be read,
and the groups captured so far (most recent first). -/
structure MState where
  pos : Nat
  rest : List Char
  caps : List (Nat × List Char)
  deriving Repr, DecidableEq

/-- Reading the literal `s` at the front of the text: the state after it, or
`none` when the text does not start with `s`. -/
def MState.eat : List Char → MState → Option MState
  | [], st => some st
  | c :: cs, st =>
    match st.rest with
    | [] => none
    | x :: xs => if x = c then MState.eat cs { st with pos := st.pos + 1, rest := xs } else none

/-- Greedy repetition `r+`: one iteration of `step`, then as many more as
possible before the continuation `k` is tried; an iteration that consumed
nothing is not repeated.  `fuel` bounds the number of iterations. -/
def plusLoop (step : MState → (MState → Option MState) → Option MState) :
    Nat → MState → (MState → Option MState) → Option MState
  | 0, _, _ => none
  | fuel + 1, st, k =>
    step st fun st1 =>
      match (if st1.rest.length < st.rest.length then plusLoop step fuel st1 k else none) with
      | some res => some res
      | none => k st1

/-- Backtracking matcher in continuation-passing style: `r.run st k` is the
first way (in the priority order of leftmost-first matching) of matching `r`
from `st` such that the continuation `k` succeeds on the state reached. -/
def Regex.run : Regex → MState → (MState → Option MState) → Option MState
  | .bol, st, k => if st.pos = 0 then k st else none
  | .eol, st, k => if st.rest = [] then k st else none
  | .lit s, st, k =>
    match st.eat s with
    | some st1 => k st1
    | none => none
  | .notChar c, st, k =>
    match st.rest with
    | [] => none
    | x :: xs => if x = c then none else k { st with pos := st.pos + 1, rest := xs }
  | .cat r s, st, k => r.run st fun st1 => s.run st1 k
  | .plus r, st, k => plusLoop r.run (st.rest.length + 1) st k
  | .group i r, st, k =>
    r.run st fun st1 =>
      k { st1 with caps := (i, st.rest.take (st.rest.length - st1.rest.length)) :: st1.caps }

/-- Number of capturing groups of a regular expression (highest index). -/
def Regex.numCap : Regex → Nat
  | .cat r s => max r.numCap s.numCap
  | .plus r => r.numCap
  | .group i r => max i r.numCap
  | _ => 0

/-- A match of `re` starting exactly at offset `pos`, where `inp` is the text
from that offset on: the matched text followed by the text of each group
(`""` for a group that took no part in the match). -/
def Regex.matchAt (re : Regex) (pos : Nat) (inp : List Char) : Option (List String) :=
  match re.run { pos := pos, rest := inp, caps := [] } some with
  | none => none
  | some st =>
    some (String.mk (inp.take (inp.length - st.rest.length)) ::
      (List.range re.numCap).map fun i => String.mk ((st.caps.lookup (i + 1)).getD []))

/-- Leftmost search: the match at the earliest offset that has one. -/
def Regex.findFrom (re : Regex) : Nat → List Char → Option (List String)
  | pos, [] => re.matchAt pos []
  | pos, x :: xs =>
    match re.matchAt pos (x :: xs) with
    | some m => some m
    | none => re.findFrom (pos + 1) xs

/-- Go's `(*Regexp).FindStringSubmatch`: `none` is the nil slice. -/
def Regex.FindStringSubmatch (re : Regex) (s : String) : Option (List String) :=
  re.findFrom 0 s.data

/-- Line 49: `regexp.MustCompile("^zigbee2mqtt/([^/]+)/action$")`. -/
def reSwitchCmd : Regex :=
  .cat .bol (.cat (.lit "zigbee2mqtt/".data) (.cat (.group 1 (.plus (.notChar '/')))
    (.cat (.lit "/action".data) .eol)))

/-! ## Data model -/

/-- The struct `LightMapping` (lines 39-43); `Brightness` is the `*int`, with
`none` for the nil pointer. -/
structure LightMapping where
  SwitchID : String
  LightID : String
  Brightness : Option Int
  deriving DecidableEq, Repr

/-- A Go `map[string]α`, as the list of its entries; every key occurs once. -/
abbrev GoMap (α : Type) := List (String × α)

/-- The comma-ok lookup `v, ok := m[k]`: `none` when `ok` is false. -/
def GoMap.lookup {α : Type} (m : GoMap α) (k : String) : Option α :=
  match m with
  | [] => none
  | (k1, v1) :: t => if k1 = k then some v1 else GoMap.lookup t k

/-- The assignment `m[k] = v`: overwrites the entry of `k`, or adds one. -/
def GoMap.assign {α : Type} (m : GoMap α) (k : String) (v : α) : GoMap α :=
  match m with
  | [] => [(k, v)]
  | (k1, v1) :: t => if k1 = k then (k, v) :: t else (k1, v1) :: GoMap.assign t k v

/-- The keys of a map. -/
def GoMap.keys {α : Type} (m : GoMap α) : List String := m.map Prod.fst

/-- Values stored in the command object `cObj` (a `map[string]any`). -/
inductive JVal where
  | str (s : String) : JVal
  | int (n : Int) : JVal
  deriving DecidableEq, Repr

/-- The message `p.Packet` taken from the channel `incoming`. -/
structure Event where
  Topic : String
  Payload : List UInt8
  deriving DecidableEq, Repr

/-- The `paho.Publish` passed to `c.Publish` (lines 235-240).  `Payload` is
the object `cObj` that `json.Marshal` serialises. -/
structure Publish where
  QoS : Nat
  Topic : String
  Retain : Bool
  Payload : GoMap JVal
  deriving DecidableEq, Repr

/-- What one iteration of the loop does to the outside world: the line
written by `fmt.Printf` (line 175), a `log.Println` with its operands, or a
call of `c.Publish`. -/
inductive Effect where
  | printf (topic : String) (payload : List UInt8) : Effect
  | log (args : List String) : Effect
  | publish (p : Publish) : Effect
  deriving DecidableEq, Repr

/-- The publish calls among a sequence of effects, in order. -/
def publishes : List Effect → List Publish
  | [] => []
  | .publish p :: es => p :: publishes es
  | _ :: es => publishes es

/-- The log entries among a sequence of effects, in order. -/
def logs : List Effect → List (List String)
  | [] => []
  | .log a :: es => a :: logs es
  | _ :: es => logs es

/-- The UTF-8 bytes of a string literal. -/
def bytes (s : String) : List UInt8 := s.toUTF8.data.toList

/-! ## The program -/

/-- Lines 163-167: `switchToLight`, filled from `cfg.Mappings` in order. -/
def buildTable (mappings : List LightMapping) : GoMap LightMapping :=
  mappings.foldl (fun switchToLight m => GoMap.assign switchToLight m.SwitchID m) []

/-- Lines 174-254: the branch `case p := <-incoming` of the message loop, for
one message `p`.  Returns `lightState` as the iteration leaves it and the
effects of the iteration.  `c.Publish` is taken to return no error: the
`panic` of lines 229-233 and 240-245 ends the process. -/
def handle (switchToLight : GoMap LightMapping) (lightState : GoMap Bool) (p : Event) :
    GoMap Bool × List Effect :=
  let out := [Effect.printf p.Topic p.Payload]
  match reSwitchCmd.FindStringSubmatch p.Topic with
  | none => (lightState, out ++ [.log ["unknown topic"]])
  | some matches_ =>
    let switchID := matches_.getD 1 ""
    match GoMap.lookup switchToLight switchID with
    | some l =>
      let action := p.Payload
      if action = bytes "single" then
        let st := match GoMap.lookup lightState l.LightID with
          | some b => b
          | none => false
        let newState := if st then "OFF" else "ON"
        let lightState1 := if st then GoMap.assign lightState l.LightID false
          else GoMap.assign lightState l.LightID true
        let cObj : GoMap JVal := [("state", .str newState)]
        let cObj1 := match l.Brightness with
          | some b => if newState = "ON" then GoMap.assign cObj "brightness" (.int b) else cObj
          | none => cObj
        (lightState1, out ++ [.log ["single"], .publish
          { QoS := 1
            Topic := "hmd/light/MQTT-Lightwave-RF/" ++ l.LightID ++ "/command"
            Retain := false
            Payload := cObj1 }])
      else (lightState, out ++ [.log ["unknown action"]])
    | none => (lightState, out ++ [.log ["unknown switch:", switchID]])

/-- Lines 172-260: the message loop, run on the messages that arrive on
`incoming` before the context is cancelled; then `ctx.Done()` is taken. -/
def messageLoop (switchToLight : GoMap LightMapping) :
    GoMap Bool → List Event → GoMap Bool × List Effect
  | lightState, [] => (lightState, [.log ["Shutting down"]])
  | lightState, p :: ps =>
    let r := handle switchToLight lightState p
    let r1 := messageLoop switchToLight r.1 ps
    (r1.1, r.2 ++ r1.2)

/-- Lines 159-260 of `main`: the table is built from the configuration, the
light states start empty, and the loop runs. -/
def dispatcher (mappings : List LightMapping) (evs : List Event) : GoMap Bool × List Effect :=
  messageLoop (buildTable mappings) [] evs

/-! ## Notions used to state the properties -/

/-- The switch an inbound topic names: the first group of `reSwitchCmd`. -/
def switchOf (topic : String) : Option String :=
  (reSwitchCmd.FindStringSubmatch topic).map fun matches_ => matches_.getD 1 ""

/-- The structured topic parser of the design notes: split on `/`, exactly
three segments, the first `zigbee2mqtt`, the third `action`, the second not
empty; the result is the second segment. -/
def parseTopic (topic : String) : Option String :=
  match topic.data.splitOn '/' with
  | [a, b, c] =>
    if a = "zigbee2mqtt".data ∧ c = "action".data ∧ b ≠ [] then some (String.mk b) else none
  | _ => none

/-- The topic a command for light `lightID` is published to. -/
def commandTopic (lightID : String) : String :=
  "hmd/light/MQTT-Lightwave-RF/" ++ lightID ++ "/command"

/-- The light state after the events `evs` have been handled in order. -/
def stateAfter (switchToLight : GoMap LightMapping) (lightState : GoMap Bool)
    (evs : List Event) : GoMap Bool :=
  evs.foldl (fun st p => (handle switchToLight st p).1) lightState

/-- The state the loop takes a light to be in: off when it has no entry. -/
def currentState (lightState : GoMap Bool) (lightID : String) : Bool :=
  (GoMap.lookup lightState lightID).getD false

/-- The `state` field of a published command. -/
def Publish.state (p : Publish) : Option JVal := GoMap.lookup p.Payload "state"

/-- The inbound event for a press `action` of switch `switchID`. -/
def actionEvent (switchID : String) (action : String) : Event :=
  { Topic := "zigbee2mqtt/" ++ switchID ++ "/action", Payload := bytes action }

/-- An event that the loop accepts as a toggle of the light `lightID`: its
topic names a switch mapped to that light and its payload is `single`. -/
def acceptedFor (switchToLight : GoMap LightMapping) (lightID : String) (p : Event) : Bool :=
  match switchOf p.Topic with
  | none => false
  | some s =>
    match GoMap.lookup switchToLight s with
    | none => false
    | some l => l.LightID = lightID && p.Payload = bytes "single"

/-! ## The matcher on `reSwitchCmd` -/

/-- The matcher evaluated on sample topics: a well-formed topic, a missing
switch segment, an empty one, a text before `zigbee2mqtt`, and a segment after
`action`. -/
theorem find_samples :
    reSwitchCmd.FindStringSubmatch "zigbee2mqtt/sw1/action"
        = some ["zigbee2mqtt/sw1/action", "sw1"]
      ∧ reSwitchCmd.FindStringSubmatch "zigbee2mqtt/action" = none
      ∧ reSwitchCmd.FindStringSubmatch "zigbee2mqtt//action" = none
      ∧ reSwitchCmd.FindStringSubmatch "xzigbee2mqtt/a/action" = none
      ∧ reSwitchCmd.FindStringSubmatch "zigbee2mqtt/sw1/action/extra" = none := by
  decide

/-- The search is leftmost and `+` is greedy with backtracking: `([^/]+)b` in
`/abbc` matches `abb` from offset 1, the group holding `ab`. -/
theorem find_greedy_sample :
    (Regex.cat (.group 1 (.plus (.notChar '/'))) (.lit "b".data)).FindStringSubmatch "/abbc"
      = some ["abb", "ab"] := by
  decide

theorem eat_append (s r : List Char) (p : Nat) (c : List (Nat × List Char)) :
    MState.eat s { pos := p, rest := s ++ r, caps := c }
      = some { pos := p + s.length, rest := r, caps := c } := by
  induction s generalizing p with
  | nil => simp [MState.eat]
  | cons x xs ih => simp [MState.eat, ih]; omega

theorem eat_some (s : List Char) (st st1 : MState) (h : st.eat s = some st1) :
    st.rest = s ++ st1.rest ∧ st1.caps = st.caps ∧ st1.pos = st.pos + s.length := by
  induction s generalizing st with
  | nil => simp [MState.eat] at h; subst h; simp
  | cons x xs ih =>
    unfold MState.eat at h
    split at h
    · simp at h
    · rename_i y ys hr
      split at h
      · rename_i hxy
        have := ih _ h
        simp at this
        simp [hr, hxy, this]
        omega
      · simp at h

theorem run_notChar_nil (c : Char) (p : Nat) (cs : List (Nat × List Char))
    (k : MState → Option MState) :
    (Regex.notChar c).run { pos := p, rest := [], caps := cs } k = none := rfl

theorem run_notChar_cons (c x : Char) (xs : List Char) (p : Nat) (cs : List (Nat × List Char))
    (k : MState → Option MState) :
    (Regex.notChar c).run { pos := p, rest := x :: xs, caps := cs } k
      = if x = c then none else k { pos := p + 1, rest := xs, caps := cs } := rfl

/-- Greedy `[^c]+` in front of a continuation that fails wherever another
`[^c]` could be read: the loop reads the longest run of characters other than
`c` and the continuation is run there, nowhere else. -/
theorem plusLoop_notChar (c : Char) (k : MState → Option MState)
    (hk : ∀ st x xs, st.rest = x :: xs → x ≠ c → k st = none) :
    ∀ (fuel : Nat) (p : Nat) (rest : List Char) (cs : List (Nat × List Char)),
      rest.length < fuel →
      plusLoop (Regex.notChar c).run fuel { pos := p, rest := rest, caps := cs } k =
        match rest with
        | [] => none
        | x :: xs =>
          if x = c then none
          else k { pos := p + ((x :: xs).takeWhile (fun y => y ≠ c)).length,
                   rest := (x :: xs).dropWhile (fun y => y ≠ c), caps := cs } := by
  intro fuel
  induction fuel with
  | zero => intro p rest cs h; omega
  | succ n ih =>
    intro pos rest caps hlen
    cases rest with
    | nil => simp only [plusLoop]; rw [run_notChar_nil]
    | cons x xs =>
      simp only [plusLoop]; rw [run_notChar_cons]
      by_cases hx : x = c
      · simp [hx]
      · simp only [List.length_cons] at hlen
        have hlen1 : xs.length < n := by omega
        have ih1 := ih (pos + 1) xs caps hlen1
        simp only [hx, if_false, List.length_cons, Nat.lt_succ_self, if_true, ih1]
        cases xs with
        | nil => simp [hx]
        | cons y ys =>
          by_cases hy : y = c
          · simp [hx, hy]
          · simp only [hy, if_false]
            have e : (x :: y :: ys).takeWhile (fun z => z ≠ c)
                = x :: (y :: ys).takeWhile (fun z => z ≠ c) := by simp [List.takeWhile, hx]
            have e2 : (x :: y :: ys).dropWhile (fun z => z ≠ c)
                = (y :: ys).dropWhile (fun z => z ≠ c) := by simp [List.dropWhile, hx]
            rw [e, e2]
            simp only [List.length_cons]
            have hp : pos + 1 + (((y :: ys).takeWhile (fun z => z ≠ c)).length)
                = pos + (((y :: ys).takeWhile (fun z => z ≠ c)).length + 1) := by omega
            rw [hp]
            cases hres : k { pos := pos + (((y :: ys).takeWhile (fun z => z ≠ c)).length + 1),
                             rest := (y :: ys).dropWhile (fun z => z ≠ c), caps := caps } with
            | some r => rfl
            | none => exact hk _ y ys rfl hy

theorem takeWhile_ne_append (c : Char) (s r : List Char) (hs : c ∉ s) :
    (s ++ c :: r).takeWhile (fun y => y ≠ c) = s := by
  induction s with
  | nil => simp [List.takeWhile]
  | cons x xs ih =>
    simp only [List.mem_cons, not_or] at hs
    have hx : x ≠ c := fun h => hs.1 h.symm
    have h2 := ih hs.2
    simpa [List.takeWhile, hx] using h2

theorem dropWhile_ne_append (c : Char) (s r : List Char) (hs : c ∉ s) :
    (s ++ c :: r).dropWhile (fun y => y ≠ c) = c :: r := by
  induction s with
  | nil => simp [List.dropWhile]
  | cons x xs ih =>
    simp only [List.mem_cons, not_or] at hs
    have hx : x ≠ c := fun h => hs.1 h.symm
    have h2 := ih hs.2
    simpa [List.dropWhile, hx] using h2

theorem not_mem_takeWhile_ne (c : Char) (l : List Char) :
    c ∉ l.takeWhile (fun y => y ≠ c) := by
  intro h
  have := List.mem_takeWhile_imp h
  simp at this

theorem dropWhile_ne_shape (c : Char) (l : List Char) :
    l.dropWhile (fun y => y ≠ c) = [] ∨ ∃ r, l.dropWhile (fun y => y ≠ c) = c :: r := by
  induction l with
  | nil => simp
  | cons x xs ih =>
    by_cases hx : x = c
    · right; exact ⟨xs, by simp [List.dropWhile, hx]⟩
    · simpa [List.dropWhile, hx] using ih

/-- The part of `reSwitchCmd` after the group, `/action$`, succeeds exactly on
the text `/action`. -/
theorem run_tail (p : Nat) (rest : List Char) (cs : List (Nat × List Char)) :
    (Regex.cat (.lit "/action".data) .eol).run { pos := p, rest := rest, caps := cs } some
      = if rest = "/action".data then some { pos := p + 7, rest := [], caps := cs } else none := by
  show (match MState.eat "/action".data { pos := p, rest := rest, caps := cs } with
        | some st1 => if st1.rest = [] then some st1 else none
        | none => none) = _
  by_cases h : rest = "/action".data
  · subst h
    have := eat_append "/action".data [] p cs
    simp only [List.append_nil] at this
    rw [this]
    simp
  · simp only [h, if_false]
    cases he : MState.eat "/action".data { pos := p, rest := rest, caps := cs } with
    | none => rfl
    | some st1 =>
      have := eat_some _ _ _ he
      simp only at this
      by_cases h1 : st1.rest = []
      · rw [h1] at this; simp at this; exact absurd this.1 h
      · simp [h1]

/-- The matcher run on `reSwitchCmd` from the start of a text, in closed form. -/
theorem run_reSwitchCmd (inp : List Char) :
    reSwitchCmd.run { pos := 0, rest := inp, caps := [] } some =
      match MState.eat "zigbee2mqtt/".data { pos := 0, rest := inp, caps := [] } with
      | none => none
      | some st1 =>
        match st1.rest with
        | [] => none
        | x :: xs =>
          if x = '/' then none
          else if (x :: xs).dropWhile (fun y => y ≠ '/') = "/action".data then
            some { pos := st1.pos + ((x :: xs).takeWhile (fun y => y ≠ '/')).length + 7,
                   rest := [],
                   caps := [(1, (x :: xs).take ((x :: xs).length - 7))] }
          else none := by
  show (if (0 : Nat) = 0 then
      (match MState.eat "zigbee2mqtt/".data { pos := 0, rest := inp, caps := [] } with
       | some st1 =>
          plusLoop (Regex.notChar '/').run (st1.rest.length + 1) st1 (fun st2 =>
            (Regex.cat (.lit "/action".data) .eol).run
              { st2 with caps := (1, st1.rest.take (st1.rest.length - st2.rest.length)) :: st2.caps }
              some)
       | none => none) else none) = _
  simp only [if_true]
  cases he : MState.eat "zigbee2mqtt/".data { pos := 0, rest := inp, caps := [] } with
  | none => rfl
  | some st1 =>
    have hcaps := (eat_some _ _ _ he).2.1
    rcases st1 with ⟨p1, r1, c1⟩
    simp only at hcaps
    subst hcaps
    simp only
    rw [plusLoop_notChar '/' _ _ _ p1 r1 [] (Nat.lt_succ_self _)]
    · cases r1 with
      | nil => rfl
      | cons x xs =>
        simp only
        by_cases hx : x = '/'
        · simp [hx]
        · simp only [hx, if_false]
          rw [run_tail]
          by_cases hd : (x :: xs).dropWhile (fun y => y ≠ '/') = "/action".data
          · simp only [hd, if_true]
            simp
          · simp only [hd, if_false]
    · intro st x xs hr hx
      rcases st with ⟨p, r, c⟩
      simp only at hr
      subst hr
      rw [run_tail]
      have : ¬ (x :: xs = "/action".data) := by
        intro h
        have : x = '/' := by simpa using congrArg List.head? h
        exact hx this
      simp [this]

theorem matchAt_reSwitchCmd_succ (p : Nat) (inp : List Char) :
    reSwitchCmd.matchAt (p + 1) inp = none := by
  have h : reSwitchCmd.run { pos := p + 1, rest := inp, caps := [] } some = none := by
    simp [reSwitchCmd, Regex.run]
  simp [Regex.matchAt, h]

theorem findFrom_reSwitchCmd_succ (p : Nat) (inp : List Char) :
    reSwitchCmd.findFrom (p + 1) inp = none := by
  induction inp generalizing p with
  | nil => simp [Regex.findFrom, matchAt_reSwitchCmd_succ]
  | cons x xs ih => simp [Regex.findFrom, matchAt_reSwitchCmd_succ, ih]

/-- Because of the anchor `^`, the search only ever matches at offset 0. -/
theorem findFrom_reSwitchCmd (inp : List Char) :
    reSwitchCmd.findFrom 0 inp = reSwitchCmd.matchAt 0 inp := by
  cases inp with
  | nil => rfl
  | cons x xs =>
    simp only [Regex.findFrom, findFrom_reSwitchCmd_succ]
    cases reSwitchCmd.matchAt 0 (x :: xs) <;> rfl

/-- A topic of the shape `zigbee2mqtt/<s>/action`, with `s` not empty and free
of `/`, is matched, and the submatches are the topic and `s`. -/
theorem find_of_shape (s : List Char) (hne : s ≠ []) (hs : '/' ∉ s) :
    reSwitchCmd.FindStringSubmatch (String.mk ("zigbee2mqtt/".data ++ s ++ "/action".data))
      = some [String.mk ("zigbee2mqtt/".data ++ s ++ "/action".data), String.mk s] := by
  unfold Regex.FindStringSubmatch
  rw [findFrom_reSwitchCmd]
  unfold Regex.matchAt
  rw [run_reSwitchCmd]
  simp only [List.append_assoc]
  rw [eat_append]
  cases s with
  | nil => exact absurd rfl hne
  | cons x xs =>
    have hx : x ≠ '/' := by
      intro h; apply hs; simp [h]
    have hd : (x :: xs ++ "/action".data).dropWhile (fun y => y ≠ '/') = "/action".data :=
      dropWhile_ne_append '/' (x :: xs) "action".data hs
    have hn : reSwitchCmd.numCap = 1 := by decide
    simp only [List.cons_append] at hd ⊢
    simp only [hx, if_false, hd, if_true, hn, List.length_nil, Nat.sub_zero, List.take_length]
    have hl : ("/action".data).length = 7 := by decide
    have htake : (x :: (xs ++ "/action".data)).take ((x :: (xs ++ "/action".data)).length - 7)
        = x :: xs := by
      rw [← List.cons_append, List.length_append, hl, Nat.add_sub_cancel, List.take_left]
    rw [htake]
    simp [List.lookup, List.range_succ]

/-- Conversely every match of `reSwitchCmd` is on a topic of that shape. -/
theorem shape_of_find (t : String) (ms : List String)
    (h : reSwitchCmd.FindStringSubmatch t = some ms) :
    ∃ s : List Char, s ≠ [] ∧ '/' ∉ s ∧ t.data = "zigbee2mqtt/".data ++ s ++ "/action".data
      ∧ ms = [t, String.mk s] := by
  unfold Regex.FindStringSubmatch at h
  rw [findFrom_reSwitchCmd] at h
  unfold Regex.matchAt at h
  rw [run_reSwitchCmd] at h
  cases he : MState.eat "zigbee2mqtt/".data { pos := 0, rest := t.data, caps := [] } with
  | none => simp [he] at h
  | some st1 =>
    have hr := (eat_some _ _ _ he).1
    simp only at hr
    simp only [he] at h
    cases hr1 : st1.rest with
    | nil => simp [hr1] at h
    | cons x xs =>
      simp only [hr1] at h
      by_cases hx : x = '/'
      · simp [hx] at h
      · simp only [hx, if_false] at h
        by_cases hd : (x :: xs).dropWhile (fun y => y ≠ '/') = "/action".data
        · simp only [hd, if_true] at h
          have hsplit := List.takeWhile_append_dropWhile (fun y => decide (y ≠ '/')) (x :: xs)
          rw [hd] at hsplit
          refine ⟨(x :: xs).takeWhile (fun y => y ≠ '/'), ?_, not_mem_takeWhile_ne _ _, ?_, ?_⟩
          · simp [List.takeWhile, hx]
          · rw [hr, hr1, List.append_assoc, hsplit]
          · have hn : reSwitchCmd.numCap = 1 := by decide
            have hl : ("/action".data).length = 7 := by decide
            have htake : (x :: xs).take ((x :: xs).length - 7)
                = (x :: xs).takeWhile (fun y => y ≠ '/') := by
              conv_lhs => rw [← hsplit]
              simp [hl]
            simp only [hn, Option.some.injEq, List.length_nil, Nat.sub_zero, List.take_length] at h
            rw [← h, htake]
            simp [List.lookup, List.range_succ]
        · simp only [hd, if_false] at h
          exact absurd h (by simp)

/-! ## Splitting on `/` -/

theorem splitOnP_segment_free (p : Char → Bool) (l : List Char) :
    ∀ seg ∈ l.splitOnP p, ∀ x ∈ seg, p x = false := by
  induction l with
  | nil => simp
  | cons a as ih =>
    rw [List.splitOnP_cons]
    by_cases ha : p a = true
    · simp only [ha, if_true]
      intro seg hseg
      rcases List.mem_cons.1 hseg with h | h
      · subst h; simp
      · exact ih seg h
    · simp only [ha]
      cases hsp : as.splitOnP p with
      | nil => simp [List.modifyHead]
      | cons hd tl =>
        rw [hsp] at ih
        intro seg hseg
        simp only [List.modifyHead, Bool.false_eq_true, if_false, List.mem_cons] at hseg
        rcases hseg with h | h
        · subst h
          intro x hx
          rcases List.mem_cons.1 hx with h1 | h1
          · subst h1; simpa using ha
          · exact ih hd (List.mem_cons_self _ _) x h1
        · exact ih seg (List.mem_cons_of_mem _ h)

/-- Splitting on `/` gives the three segments `zigbee2mqtt`, `b`, `action`
exactly for the text `zigbee2mqtt/b/action` with `b` free of `/`. -/
theorem splitOn_three_iff (l b : List Char) :
    l.splitOn '/' = ["zigbee2mqtt".data, b, "action".data]
      ↔ '/' ∉ b ∧ l = "zigbee2mqtt/".data ++ b ++ "/action".data := by
  constructor
  · intro h
    have hj := List.intercalate_splitOn l '/'
    rw [h] at hj
    constructor
    · intro hb
      have := splitOnP_segment_free (fun y => y == '/') l b
        (by
          have h1 : l.splitOnP (fun y => y == '/') = ["zigbee2mqtt".data, b, "action".data] := h
          rw [h1]; simp) '/' hb
      simp at this
    · rw [← hj]
      simp [List.intercalate, List.intersperse, List.flatten]
  · rintro ⟨hb, hl⟩
    have hi : l = ['/'].intercalate ["zigbee2mqtt".data, b, "action".data] := by
      rw [hl]
      simp [List.intercalate, List.intersperse, List.flatten]
    rw [hi]
    apply List.splitOn_intercalate
    · intro seg hseg
      simp only [List.mem_cons, List.mem_singleton, List.not_mem_nil, or_false] at hseg
      rcases hseg with h | h | h
      · subst h; decide
      · subst h; exact hb
      · subst h; decide
    · simp

/-- The regular expression and the structured parser agree on every topic. -/
theorem switchOf_eq_parseTopic (t : String) : switchOf t = parseTopic t := by
  unfold switchOf parseTopic
  cases hf : reSwitchCmd.FindStringSubmatch t with
  | some ms =>
    obtain ⟨s, hne, hs, ht, hms⟩ := shape_of_find t ms hf
    have hsp := (splitOn_three_iff t.data s).2 ⟨hs, ht⟩
    rw [hsp]
    simp [hms, hne]
  | none =>
    simp only [Option.map_none']
    split
    · rename_i a b c hsp
      split
      · rename_i hcond
        obtain ⟨ha, hc, hb⟩ := hcond
        subst ha; subst hc
        have := (splitOn_three_iff t.data b).1 hsp
        have hm := find_of_shape b hb this.1
        rw [← this.2] at hm
        rw [show (String.mk t.data) = t from rfl] at hm
        rw [hf] at hm
        exact absurd hm (by simp)
      · rfl
    · rfl

/-! ## The four outcomes of one iteration -/

theorem find_of_switchOf {t sw : String} (h : switchOf t = some sw) :
    reSwitchCmd.FindStringSubmatch t = some [t, sw] := by
  unfold switchOf at h
  cases hf : reSwitchCmd.FindStringSubmatch t with
  | none => simp [hf] at h
  | some ms =>
    obtain ⟨s, _, _, _, hms⟩ := shape_of_find t ms hf
    subst hms
    simp [hf] at h
    rw [h]

theorem find_none_of_switchOf {t : String} (h : switchOf t = none) :
    reSwitchCmd.FindStringSubmatch t = none := by
  unfold switchOf at h
  cases hf : reSwitchCmd.FindStringSubmatch t with
  | none => rfl
  | some ms => simp [hf] at h

/-- A topic names the switch `sw` exactly when it is `zigbee2mqtt/sw/action`
and `sw` is not empty and has no `/`. -/
theorem switchOf_eq_some_iff (t sw : String) :
    switchOf t = some sw ↔
      sw.data ≠ [] ∧ '/' ∉ sw.data ∧ t = "zigbee2mqtt/" ++ sw ++ "/action" := by
  constructor
  · intro h
    have hf := find_of_switchOf h
    obtain ⟨s, hne, hs, ht, hms⟩ := shape_of_find t _ hf
    have hsw : sw = String.mk s := by simpa using hms
    subst hsw
    refine ⟨hne, hs, ?_⟩
    apply String.ext
    simp [ht]
  · rintro ⟨hne, hs, ht⟩
    have hf := find_of_shape sw.data hne hs
    have ht2 : t = String.mk ("zigbee2mqtt/".data ++ sw.data ++ "/action".data) := by
      rw [ht]; apply String.ext; simp
    rw [← ht2] at hf
    simp [switchOf, hf]

theorem handle_noMatch (tbl : GoMap LightMapping) (st : GoMap Bool) (ev : Event)
    (h : switchOf ev.Topic = none) :
    handle tbl st ev
      = (st, [Effect.printf ev.Topic ev.Payload, Effect.log ["unknown topic"]]) := by
  simp [handle, find_none_of_switchOf h]

theorem handle_unknownSwitch (tbl : GoMap LightMapping) (st : GoMap Bool) (ev : Event)
    (sw : String) (h : switchOf ev.Topic = some sw) (hn : GoMap.lookup tbl sw = none) :
    handle tbl st ev
      = (st, [Effect.printf ev.Topic ev.Payload, Effect.log ["unknown switch:", sw]]) := by
  simp [handle, find_of_switchOf h, hn]

theorem handle_unknownAction (tbl : GoMap LightMapping) (st : GoMap Bool) (ev : Event)
    (sw : String) (m : LightMapping) (h : switchOf ev.Topic = some sw)
    (hm : GoMap.lookup tbl sw = some m) (hp : ev.Payload ≠ bytes "single") :
    handle tbl st ev
      = (st, [Effect.printf ev.Topic ev.Payload, Effect.log ["unknown action"]]) := by
  simp [handle, find_of_switchOf h, hm, hp]

theorem handle_single (tbl : GoMap LightMapping) (st : GoMap Bool) (ev : Event)
    (sw : String) (m : LightMapping) (h : switchOf ev.Topic = some sw)
    (hm : GoMap.lookup tbl sw = some m) (hp : ev.Payload = bytes "single") :
    handle tbl st ev
      = (GoMap.assign st m.LightID (!currentState st m.LightID),
         [Effect.printf ev.Topic ev.Payload, Effect.log ["single"],
          Effect.publish
            { QoS := 1
              Topic := commandTopic m.LightID
              Retain := false
              Payload :=
                if currentState st m.LightID then [("state", JVal.str "OFF")]
                else match m.Brightness with
                  | some b => [("state", JVal.str "ON"), ("brightness", JVal.int b)]
                  | none => [("state", JVal.str "ON")] }]) := by
  unfold handle
  rw [find_of_switchOf h]
  simp only [List.getD_cons_succ, List.getD_cons_zero, hm, hp, if_true]
  unfold currentState commandTopic
  cases hl : GoMap.lookup st m.LightID with
  | none =>
    cases hb : m.Brightness <;> simp [GoMap.assign]
  | some b =>
    cases b <;> cases hb : m.Brightness <;> simp [GoMap.assign]

/-! ## Go maps -/

theorem lookup_assign_self {α : Type} (m : GoMap α) (k : String) (v : α) :
    GoMap.lookup (GoMap.assign m k v) k = some v := by
  induction m with
  | nil => simp [GoMap.assign, GoMap.lookup]
  | cons e t ih =>
    rcases e with ⟨k1, v1⟩
    by_cases h : k1 = k
    · simp [GoMap.assign, GoMap.lookup, h]
    · simp [GoMap.assign, GoMap.lookup, h, ih]

theorem lookup_assign_ne {α : Type} (m : GoMap α) (k k2 : String) (v : α) (hk : k2 ≠ k) :
    GoMap.lookup (GoMap.assign m k v) k2 = GoMap.lookup m k2 := by
  induction m with
  | nil => simp [GoMap.assign, GoMap.lookup, hk.symm]
  | cons e t ih =>
    rcases e with ⟨k1, v1⟩
    by_cases h : k1 = k
    · subst h
      simp [GoMap.assign, GoMap.lookup, hk.symm]
    · by_cases h2 : k1 = k2
      · subst h2
        simp [GoMap.assign, GoMap.lookup, hk]
      · simp [GoMap.assign, GoMap.lookup, h, h2, ih]

theorem lookup_eq_none_iff {α : Type} (m : GoMap α) (k : String) :
    GoMap.lookup m k = none ↔ k ∉ GoMap.keys m := by
  induction m with
  | nil => simp [GoMap.lookup, GoMap.keys]
  | cons e t ih =>
    rcases e with ⟨k1, v1⟩
    by_cases h : k1 = k
    · simp [GoMap.lookup, GoMap.keys, h]
    · have h3 : ¬ k = k1 := fun e => h e.symm
      simp only [GoMap.keys] at ih
      simp [GoMap.lookup, GoMap.keys, h, h3, ih]

theorem mem_keys_assign {α : Type} (m : GoMap α) (k k2 : String) (v : α) :
    k2 ∈ GoMap.keys (GoMap.assign m k v) ↔ k2 = k ∨ k2 ∈ GoMap.keys m := by
  induction m with
  | nil => simp [GoMap.assign, GoMap.keys]
  | cons e t ih =>
    rcases e with ⟨k1, v1⟩
    simp only [GoMap.keys] at ih
    by_cases h : k1 = k
    · subst h; simp [GoMap.assign, GoMap.keys]
    · simp only [GoMap.assign, h, if_false, GoMap.keys, List.map_cons, List.mem_cons, ih]
      tauto

theorem nodup_keys_assign {α : Type} (m : GoMap α) (k : String) (v : α)
    (h : (GoMap.keys m).Nodup) : (GoMap.keys (GoMap.assign m k v)).Nodup := by
  induction m with
  | nil => simp [GoMap.assign, GoMap.keys]
  | cons e t ih =>
    rcases e with ⟨k1, v1⟩
    simp only [GoMap.keys, List.map_cons, List.nodup_cons] at h
    by_cases hk : k1 = k
    · subst hk
      simpa [GoMap.assign, GoMap.keys] using h
    · have hmem := mem_keys_assign t k k1 v
      simp only [GoMap.assign, hk, if_false, GoMap.keys, List.map_cons, List.nodup_cons]
      refine ⟨?_, ih h.2⟩
      intro hc
      rcases hmem.1 hc with h1 | h1
      · exact hk h1
      · exact h.1 h1

/-- An event that is not a `single` press, or not on a mapped switch, or not
on a switch topic, is discarded: the light states stay and nothing is
published. -/
theorem handle_discard (tbl : GoMap LightMapping) (st : GoMap Bool) (ev : Event)
    (h : ev.Payload ≠ bytes "single" ∨ switchOf ev.Topic = none
      ∨ ∃ sw, switchOf ev.Topic = some sw ∧ GoMap.lookup tbl sw = none) :
    (handle tbl st ev).1 = st ∧ publishes (handle tbl st ev).2 = [] := by
  cases hs : switchOf ev.Topic with
  | none => rw [handle_noMatch tbl st ev hs]; exact ⟨rfl, rfl⟩
  | some sw =>
    cases hm : GoMap.lookup tbl sw with
    | none => rw [handle_unknownSwitch tbl st ev sw hs hm]; exact ⟨rfl, rfl⟩
    | some m =>
      rcases h with h | h | ⟨sw2, h1, h2⟩
      · rw [handle_unknownAction tbl st ev sw m hs hm h]; exact ⟨rfl, rfl⟩
      · rw [hs] at h; exact absurd h (by simp)
      · rw [hs] at h1
        have : sw = sw2 := by simpa using h1
        subst this
        rw [hm] at h2
        exact absurd h2 (by simp)

/-! ## The loop -/

theorem publishes_append (xs ys : List Effect) :
    publishes (xs ++ ys) = publishes xs ++ publishes ys := by
  induction xs with
  | nil => rfl
  | cons e es ih => cases e <;> simp [publishes, ih]

theorem publishes_messageLoop_nil (tbl : GoMap LightMapping) (st : GoMap Bool) :
    publishes (messageLoop tbl st []).2 = [] := rfl

theorem publishes_messageLoop_cons (tbl : GoMap LightMapping) (st : GoMap Bool) (p : Event)
    (ps : List Event) :
    publishes (messageLoop tbl st (p :: ps)).2
      = publishes (handle tbl st p).2 ++ publishes (messageLoop tbl (handle tbl st p).1 ps).2 := by
  simp [messageLoop, publishes_append]

theorem messageLoop_state (tbl : GoMap LightMapping) (st : GoMap Bool) (evs : List Event) :
    (messageLoop tbl st evs).1 = stateAfter tbl st evs := by
  induction evs generalizing st with
  | nil => rfl
  | cons p ps ih => simp [messageLoop, stateAfter, ih]

theorem stateAfter_cons (tbl : GoMap LightMapping) (st : GoMap Bool) (p : Event)
    (ps : List Event) :
    stateAfter tbl st (p :: ps) = stateAfter tbl (handle tbl st p).1 ps := rfl

theorem currentState_assign_self (st : GoMap Bool) (k : String) (v : Bool) :
    currentState (GoMap.assign st k v) k = v := by
  simp [currentState, lookup_assign_self]

theorem currentState_assign_ne (st : GoMap Bool) (k k2 : String) (v : Bool) (h : k2 ≠ k) :
    currentState (GoMap.assign st k v) k2 = currentState st k2 := by
  simp [currentState, lookup_assign_ne _ _ _ _ h]

theorem switchOf_actionEvent (s a : String) (hne : s.data ≠ []) (hs : '/' ∉ s.data) :
    switchOf (actionEvent s a).Topic = some s :=
  (switchOf_eq_some_iff _ s).2 ⟨hne, hs, rfl⟩

/-! ## The claims -/

/-- C3: for a mapped switch `s` and a payload that is not exactly the bytes of
`single`, handling the event with topic `zigbee2mqtt/s/action` makes no
publish call and leaves the light states unchanged, for every light. -/
theorem other_payload_discarded (tbl : GoMap LightMapping) (st : GoMap Bool) (s : String)
    (m : LightMapping) (payload : List UInt8)
    (_hm : GoMap.lookup tbl s = some m) (hp : payload ≠ bytes "single") :
    publishes (handle tbl st { Topic := "zigbee2mqtt/" ++ s ++ "/action", Payload := payload }).2
        = []
      ∧ (handle tbl st { Topic := "zigbee2mqtt/" ++ s ++ "/action", Payload := payload }).1 = st
      ∧ ∀ lightID : String,
          GoMap.lookup
            (handle tbl st { Topic := "zigbee2mqtt/" ++ s ++ "/action", Payload := payload }).1
            lightID = GoMap.lookup st lightID := by
  have h := handle_discard tbl st { Topic := "zigbee2mqtt/" ++ s ++ "/action", Payload := payload }
    (Or.inl hp)
  refine ⟨h.2, h.1, ?_⟩
  intro lightID
  rw [h.1]

/-- C3 at the payloads `double`, `Single`, the empty payload and `single`
followed by a newline, on the mapped switch `sw1` whose light is on. -/
theorem other_payload_discarded_witness :
    (publishes (handle (buildTable [⟨"sw1", "L1", some 80⟩]) [("L1", true)]
        { Topic := "zigbee2mqtt/" ++ "sw1" ++ "/action", Payload := bytes "double" }).2 = []
      ∧ (handle (buildTable [⟨"sw1", "L1", some 80⟩]) [("L1", true)]
        { Topic := "zigbee2mqtt/" ++ "sw1" ++ "/action", Payload := bytes "double" }).1
          = [("L1", true)])
    ∧ (publishes (handle (buildTable [⟨"sw1", "L1", some 80⟩]) [("L1", true)]
        { Topic := "zigbee2mqtt/" ++ "sw1" ++ "/action", Payload := bytes "Single" }).2 = []
      ∧ (handle (buildTable [⟨"sw1", "L1", some 80⟩]) [("L1", true)]
        { Topic := "zigbee2mqtt/" ++ "sw1" ++ "/action", Payload := bytes "Single" }).1
          = [("L1", true)])
    ∧ (publishes (handle (buildTable [⟨"sw1", "L1", some 80⟩]) [("L1", true)]
        { Topic := "zigbee2mqtt/" ++ "sw1" ++ "/action", Payload := bytes "" }).2 = []
      ∧ (handle (buildTable [⟨"sw1", "L1", some 80⟩]) [("L1", true)]
        { Topic := "zigbee2mqtt/" ++ "sw1" ++ "/action", Payload := bytes "" }).1
          = [("L1", true)])
    ∧ (publishes (handle (buildTable [⟨"sw1", "L1", some 80⟩]) [("L1", true)]
        { Topic := "zigbee2mqtt/" ++ "sw1" ++ "/action", Payload := bytes "single\n" }).2 = []
      ∧ (handle (buildTable [⟨"sw1", "L1", some 80⟩]) [("L1", true)]
        { Topic := "zigbee2mqtt/" ++ "sw1" ++ "/action", Payload := bytes "single\n" }).1
          = [("L1", true)]) :=
  ⟨let h := other_payload_discarded (buildTable [⟨"sw1", "L1", some 80⟩]) [("L1", true)] "sw1"
      ⟨"sw1", "L1", some 80⟩ (bytes "double") (by decide) (by decide)
   ⟨h.1, h.2.1⟩,
   let h := other_payload_discarded (buildTable [⟨"sw1", "L1", some 80⟩]) [("L1", true)] "sw1"
      ⟨"sw1", "L1", some 80⟩ (bytes "Single") (by decide) (by decide)
   ⟨h.1, h.2.1⟩,
   let h := other_payload_discarded (buildTable [⟨"sw1", "L1", some 80⟩]) [("L1", true)] "sw1"
      ⟨"sw1", "L1", some 80⟩ (bytes "") (by decide) (by decide)
   ⟨h.1, h.2.1⟩,
   let h := other_payload_discarded (buildTable [⟨"sw1", "L1", some 80⟩]) [("L1", true)] "sw1"
      ⟨"sw1", "L1", some 80⟩ (bytes "single\n") (by decide) (by decide)
   ⟨h.1, h.2.1⟩⟩

/-- C4: an event whose topic names a switch that is not a key of the mapping
table makes no publish call, leaves the light states unchanged and logs
`unknown switch:` followed by the switch id, whatever the payload. -/
theorem unknown_switch_discarded (tbl : GoMap LightMapping) (st : GoMap Bool) (ev : Event)
    (s : String) (hs : switchOf ev.Topic = some s) (hn : s ∉ GoMap.keys tbl) :
    publishes (handle tbl st ev).2 = []
      ∧ (handle tbl st ev).1 = st
      ∧ logs (handle tbl st ev).2 = [["unknown switch:", s]] := by
  have hl := (lookup_eq_none_iff tbl s).2 hn
  rw [handle_unknownSwitch tbl st ev s hs hl]
  exact ⟨rfl, rfl, rfl⟩

/-- C4 at the topic `zigbee2mqtt/sw99/action` with payload `single`, where only
`sw1` is mapped. -/
theorem unknown_switch_discarded_witness :
    publishes (handle (buildTable [⟨"sw1", "L1", none⟩]) [("L1", true)]
        (actionEvent "sw99" "single")).2 = []
      ∧ (handle (buildTable [⟨"sw1", "L1", none⟩]) [("L1", true)]
        (actionEvent "sw99" "single")).1 = [("L1", true)]
      ∧ logs (handle (buildTable [⟨"sw1", "L1", none⟩]) [("L1", true)]
        (actionEvent "sw99" "single")).2 = [["unknown switch:", "sw99"]] :=
  unknown_switch_discarded (buildTable [⟨"sw1", "L1", none⟩]) [("L1", true)]
    (actionEvent "sw99" "single") "sw99" (by decide) (by decide)

/-- C5: the topics `zigbee2mqtt/action` and `zigbee2mqtt/sw1/action/extra` are
not matched by `reSwitchCmd`; an event with either topic, and more generally
with any topic the matcher rejects, makes no publish call and leaves the light
states unchanged, for every mapping table, light state and payload. -/
theorem rejected_topic_discarded (tbl : GoMap LightMapping) (st : GoMap Bool)
    (payload : List UInt8) :
    reSwitchCmd.FindStringSubmatch "zigbee2mqtt/action" = none
      ∧ reSwitchCmd.FindStringSubmatch "zigbee2mqtt/sw1/action/extra" = none
      ∧ (∀ t ∈ ["zigbee2mqtt/action", "zigbee2mqtt/sw1/action/extra"],
          publishes (handle tbl st { Topic := t, Payload := payload }).2 = []
            ∧ (handle tbl st { Topic := t, Payload := payload }).1 = st)
      ∧ (∀ t : String, reSwitchCmd.FindStringSubmatch t = none →
          publishes (handle tbl st { Topic := t, Payload := payload }).2 = []
            ∧ (handle tbl st { Topic := t, Payload := payload }).1 = st
            ∧ logs (handle tbl st { Topic := t, Payload := payload }).2 = [["unknown topic"]]) := by
  have gen : ∀ t : String, reSwitchCmd.FindStringSubmatch t = none →
      publishes (handle tbl st { Topic := t, Payload := payload }).2 = []
        ∧ (handle tbl st { Topic := t, Payload := payload }).1 = st
        ∧ logs (handle tbl st { Topic := t, Payload := payload }).2 = [["unknown topic"]] := by
    intro t ht
    have hs : switchOf (Event.mk t payload).Topic = none := by simp [switchOf, ht]
    rw [handle_noMatch tbl st _ hs]
    exact ⟨rfl, rfl, rfl⟩
  have h1 : reSwitchCmd.FindStringSubmatch "zigbee2mqtt/action" = none := by decide
  have h2 : reSwitchCmd.FindStringSubmatch "zigbee2mqtt/sw1/action/extra" = none := by decide
  refine ⟨h1, h2, ?_, gen⟩
  intro t ht
  simp only [List.mem_cons, List.mem_singleton, List.not_mem_nil, or_false] at ht
  rcases ht with h | h <;> subst h
  · exact ⟨(gen _ h1).1, (gen _ h1).2.1⟩
  · exact ⟨(gen _ h2).1, (gen _ h2).2.1⟩

/-- C6: `reSwitchCmd` is equivalent to the structured parser.  For every topic
the two return the same result; the match succeeds exactly when splitting the
topic on `/` gives three segments, the first `zigbee2mqtt`, the third `action`
and the second not empty; and the captured switch id is that second segment,
the topic being `zigbee2mqtt/` ++ switchID ++ `/action`. -/
theorem reSwitchCmd_refines_parseTopic (t : String) :
    switchOf t = parseTopic t
      ∧ ((reSwitchCmd.FindStringSubmatch t).isSome ↔
          ∃ b : List Char, t.data.splitOn '/' = ["zigbee2mqtt".data, b, "action".data] ∧ b ≠ [])
      ∧ (∀ matches_ : List String, reSwitchCmd.FindStringSubmatch t = some matches_ →
          matches_.length = 2
            ∧ t.data.splitOn '/' = ["zigbee2mqtt".data, (matches_.getD 1 "").data, "action".data]
            ∧ t = "zigbee2mqtt/" ++ matches_.getD 1 "" ++ "/action") := by
  refine ⟨switchOf_eq_parseTopic t, ?_, ?_⟩
  · constructor
    · intro h
      cases hf : reSwitchCmd.FindStringSubmatch t with
      | none => simp [hf] at h
      | some ms =>
        obtain ⟨s, hne, hs, ht, _⟩ := shape_of_find t ms hf
        exact ⟨s, (splitOn_three_iff t.data s).2 ⟨hs, ht⟩, hne⟩
    · rintro ⟨b, hsp, hb⟩
      have hshape := (splitOn_three_iff t.data b).1 hsp
      have hm := find_of_shape b hb hshape.1
      rw [← hshape.2] at hm
      rw [show (String.mk t.data) = t from rfl] at hm
      simp [hm]
  · intro ms hf
    obtain ⟨s, hne, hs, ht, hms⟩ := shape_of_find t ms hf
    subst hms
    refine ⟨rfl, ?_, ?_⟩
    · exact (splitOn_three_iff t.data s).2 ⟨hs, ht⟩
    · apply String.ext
      simp [ht]

/-- C7: a `single` event on a mapped switch makes exactly one publish call, to
the topic `hmd/light/MQTT-Lightwave-RF/` ++ lightID ++ `/command`, with QoS 1
and retain false; and no event makes more than one publish call. -/
theorem single_publishes_once (tbl : GoMap LightMapping) (st : GoMap Bool) (ev : Event)
    (s : String) (m : LightMapping) (hs : switchOf ev.Topic = some s)
    (hm : GoMap.lookup tbl s = some m) (hp : ev.Payload = bytes "single") :
    (∃ p : Publish, publishes (handle tbl st ev).2 = [p]
        ∧ p.Topic = "hmd/light/MQTT-Lightwave-RF/" ++ m.LightID ++ "/command"
        ∧ p.QoS = 1 ∧ p.Retain = false)
      ∧ ∀ (tbl2 : GoMap LightMapping) (st2 : GoMap Bool) (ev2 : Event),
          (publishes (handle tbl2 st2 ev2).2).length ≤ 1 := by
  constructor
  · rw [handle_single tbl st ev s m hs hm hp]
    exact ⟨_, rfl, rfl, rfl, rfl⟩
  · intro tbl2 st2 ev2
    cases hs2 : switchOf ev2.Topic with
    | none => rw [handle_noMatch tbl2 st2 ev2 hs2]; simp [publishes]
    | some sw =>
      cases hm2 : GoMap.lookup tbl2 sw with
      | none => rw [handle_unknownSwitch tbl2 st2 ev2 sw hs2 hm2]; simp [publishes]
      | some m2 =>
        by_cases hp2 : ev2.Payload = bytes "single"
        · rw [handle_single tbl2 st2 ev2 sw m2 hs2 hm2 hp2]; simp [publishes]
        · rw [handle_unknownAction tbl2 st2 ev2 sw m2 hs2 hm2 hp2]; simp [publishes]

/-- C7 at a `single` press of `sw1`, mapped to the light `L1`. -/
theorem single_publishes_once_witness :
    (∃ p : Publish,
        publishes (handle (buildTable [⟨"sw1", "L1", some 80⟩]) []
          (actionEvent "sw1" "single")).2 = [p]
        ∧ p.Topic = "hmd/light/MQTT-Lightwave-RF/" ++ "L1" ++ "/command"
        ∧ p.QoS = 1 ∧ p.Retain = false) :=
  (single_publishes_once (buildTable [⟨"sw1", "L1", some 80⟩]) [] (actionEvent "sw1" "single")
    "sw1" ⟨"sw1", "L1", some 80⟩ (by decide) (by decide) (by decide)).1

/-- C1 as stated fails for a switch id that contains a `/`: the table maps
`a/b` to the never-observed light `L`, yet the three events with topic
`zigbee2mqtt/a/b/action` and payload `single` are rejected by `reSwitchCmd`
and publish nothing. -/
theorem toggle_cycle_counterexample :
    GoMap.lookup (buildTable [⟨"a/b", "L", none⟩]) "a/b" = some ⟨"a/b", "L", none⟩
      ∧ GoMap.lookup ([] : GoMap Bool) "L" = none
      ∧ publishes (messageLoop (buildTable [⟨"a/b", "L", none⟩]) []
          [actionEvent "a/b" "single", actionEvent "a/b" "single",
           actionEvent "a/b" "single"]).2 = []
      ∧ (publishes (messageLoop (buildTable [⟨"a/b", "L", none⟩]) []
          [actionEvent "a/b" "single", actionEvent "a/b" "single",
           actionEvent "a/b" "single"]).2).map Publish.state
          ≠ [some (JVal.str "ON"), some (JVal.str "OFF"), some (JVal.str "ON")] := by
  decide

/-- C1, amended: for a switch id `s` that is not empty and has no `/`, mapped
to a light with no entry in the light states, three consecutive events with
topic `zigbee2mqtt/s/action` and payload `single` publish exactly three
commands, with states `ON`, `OFF`, `ON`, and the states stored for the light
after each are on, off, on. -/
theorem toggle_cycle (tbl : GoMap LightMapping) (st : GoMap Bool) (s : String)
    (m : LightMapping) (hne : s.data ≠ []) (hslash : '/' ∉ s.data)
    (hm : GoMap.lookup tbl s = some m) (hL : GoMap.lookup st m.LightID = none) :
    (publishes (messageLoop tbl st
        [actionEvent s "single", actionEvent s "single", actionEvent s "single"]).2).map
          Publish.state
        = [some (JVal.str "ON"), some (JVal.str "OFF"), some (JVal.str "ON")]
      ∧ GoMap.lookup (stateAfter tbl st [actionEvent s "single"]) m.LightID = some true
      ∧ GoMap.lookup (stateAfter tbl st [actionEvent s "single", actionEvent s "single"])
          m.LightID = some false
      ∧ GoMap.lookup (stateAfter tbl st
          [actionEvent s "single", actionEvent s "single", actionEvent s "single"])
          m.LightID = some true := by
  have hs : switchOf (actionEvent s "single").Topic = some s := switchOf_actionEvent s _ hne hslash
  have hp : (actionEvent s "single").Payload = bytes "single" := rfl
  have h0 : currentState st m.LightID = false := by simp [currentState, hL]
  have e1 := handle_single tbl st _ s m hs hm hp
  simp only [h0, Bool.not_false, Bool.false_eq_true, if_false] at e1
  have e2 := handle_single tbl (GoMap.assign st m.LightID true) _ s m hs hm hp
  simp only [currentState_assign_self, Bool.not_true, if_true] at e2
  have e3 := handle_single tbl (GoMap.assign (GoMap.assign st m.LightID true) m.LightID false)
    _ s m hs hm hp
  simp only [currentState_assign_self, Bool.not_false, Bool.false_eq_true, if_false] at e3
  refine ⟨?_, ?_, ?_, ?_⟩
  · simp only [publishes_messageLoop_cons, publishes_messageLoop_nil, e1, e2, e3]
    cases hb : m.Brightness <;>
      simp [publishes, Publish.state, GoMap.lookup]
  · simp only [stateAfter, List.foldl, e1]
    simp [lookup_assign_self]
  · simp only [stateAfter, List.foldl, e1, e2]
    simp [lookup_assign_self]
  · simp only [stateAfter, List.foldl, e1, e2, e3]
    simp [lookup_assign_self]

/-- C1, amended, at the switch `sw1` mapped to `L1` with an empty light state. -/
theorem toggle_cycle_witness :
    (publishes (messageLoop (buildTable [⟨"sw1", "L1", some 80⟩]) []
        [actionEvent "sw1" "single", actionEvent "sw1" "single",
         actionEvent "sw1" "single"]).2).map Publish.state
      = [some (JVal.str "ON"), some (JVal.str "OFF"), some (JVal.str "ON")] :=
  (toggle_cycle (buildTable [⟨"sw1", "L1", some 80⟩]) [] "sw1" ⟨"sw1", "L1", some 80⟩
    (by decide) (by decide) (by decide) (by decide)).1

/-- C2: every published command has state `ON` or `OFF`, and it contains the
key `brightness` exactly when its state is `ON` and the mapping of the
actuating switch has a brightness (any integer, 0 included), the value then
being that integer.  In particular with a configured brightness `b` (such as
80) a press that turns the light on carries `brightness` = `b` and the press
right after it publishes `OFF` with no `brightness` key; and with a table in
which no mapping has a brightness no command ever has the key. -/
theorem brightness_rule (tbl : GoMap LightMapping) (st : GoMap Bool) (ev : Event) :
    (∀ p ∈ publishes (handle tbl st ev).2,
      ∃ (s : String) (m : LightMapping), switchOf ev.Topic = some s ∧ GoMap.lookup tbl s = some m
        ∧ (p.state = some (JVal.str "ON") ∨ p.state = some (JVal.str "OFF"))
        ∧ ("brightness" ∈ GoMap.keys p.Payload ↔
            (p.state = some (JVal.str "ON") ∧ m.Brightness.isSome = true))
        ∧ (∀ b : Int, m.Brightness = some b → p.state = some (JVal.str "ON") →
            GoMap.lookup p.Payload "brightness" = some (JVal.int b)))
      ∧ (∀ (s : String) (m : LightMapping) (b : Int), switchOf ev.Topic = some s →
          GoMap.lookup tbl s = some m → ev.Payload = bytes "single" →
          currentState st m.LightID = false → m.Brightness = some b →
          (publishes (messageLoop tbl st [ev, ev]).2).map Publish.Payload
            = [[("state", JVal.str "ON"), ("brightness", JVal.int b)],
               [("state", JVal.str "OFF")]])
      ∧ ((∀ (s : String) (m : LightMapping), GoMap.lookup tbl s = some m → m.Brightness = none) →
          ∀ evs : List Event, ∀ p ∈ publishes (messageLoop tbl st evs).2,
            "brightness" ∉ GoMap.keys p.Payload) := by
  have part1 : ∀ (st : GoMap Bool) (ev : Event), ∀ p ∈ publishes (handle tbl st ev).2,
      ∃ (s : String) (m : LightMapping), switchOf ev.Topic = some s ∧ GoMap.lookup tbl s = some m
        ∧ (p.state = some (JVal.str "ON") ∨ p.state = some (JVal.str "OFF"))
        ∧ ("brightness" ∈ GoMap.keys p.Payload ↔
            (p.state = some (JVal.str "ON") ∧ m.Brightness.isSome = true))
        ∧ (∀ b : Int, m.Brightness = some b → p.state = some (JVal.str "ON") →
            GoMap.lookup p.Payload "brightness" = some (JVal.int b)) := by
    intro st ev p hp
    cases hs : switchOf ev.Topic with
    | none => rw [handle_noMatch tbl st ev hs] at hp; simp [publishes] at hp
    | some sw =>
      cases hm : GoMap.lookup tbl sw with
      | none => rw [handle_unknownSwitch tbl st ev sw hs hm] at hp; simp [publishes] at hp
      | some m =>
        by_cases hpl : ev.Payload = bytes "single"
        · rw [handle_single tbl st ev sw m hs hm hpl] at hp
          simp only [publishes, List.mem_singleton] at hp
          subst hp
          refine ⟨sw, m, rfl, hm, ?_⟩
          cases hc : currentState st m.LightID <;> cases hb : m.Brightness <;>
            simp [Publish.state, GoMap.lookup, GoMap.keys]
        · rw [handle_unknownAction tbl st ev sw m hs hm hpl] at hp; simp [publishes] at hp
  refine ⟨part1 st ev, ?_, ?_⟩
  · intro s m b hs hm hpl hc hb
    have e1 := handle_single tbl st ev s m hs hm hpl
    simp only [hc, hb, Bool.not_false, Bool.false_eq_true, if_false] at e1
    have e2 := handle_single tbl (GoMap.assign st m.LightID true) ev s m hs hm hpl
    simp only [currentState_assign_self, Bool.not_true, if_true] at e2
    simp only [publishes_messageLoop_cons, publishes_messageLoop_nil, e1, e2]
    simp [publishes]
  · intro hnone evs
    induction evs generalizing st with
    | nil => intro p hp; simp [publishes_messageLoop_nil] at hp
    | cons e es ih =>
      intro p hp
      rw [publishes_messageLoop_cons, List.mem_append] at hp
      rcases hp with hp | hp
      · obtain ⟨s, m, _, hm, _, hiff, _⟩ := part1 st e p hp
        intro hk
        have := (hiff.1 hk).2
        rw [hnone s m hm] at this
        simp at this
      · exact ih _ p hp

/-- C2 at the mapping of `sw1` to `L1` with brightness 80, the light being
off: two presses publish `ON` with brightness 80, then `OFF` alone. -/
theorem brightness_rule_witness :
    (publishes (messageLoop (buildTable [⟨"sw1", "L1", some 80⟩]) []
        [actionEvent "sw1" "single", actionEvent "sw1" "single"]).2).map Publish.Payload
      = [[("state", JVal.str "ON"), ("brightness", JVal.int 80)], [("state", JVal.str "OFF")]] :=
  (brightness_rule (buildTable [⟨"sw1", "L1", some 80⟩]) [] (actionEvent "sw1" "single")).2.1
    "sw1" ⟨"sw1", "L1", some 80⟩ 80 (by decide) (by decide) (by decide) (by decide) (by decide)

/-- C8: events are handled in the order of the queue.  The publish calls of
the loop are, for the events in order, the publish calls made by handling each
event in the light state left by the events before it; in particular three
queued `single` events on the mapped switches `s1`, `s2`, `s3` make exactly
three publish calls, to the command topics of their lights, in that order. -/
theorem fifo_processing (tbl : GoMap LightMapping) (st : GoMap Bool) (evs : List Event) :
    publishes (messageLoop tbl st evs).2
        = (List.range evs.length).flatMap (fun i =>
            match evs[i]? with
            | some ev => publishes (handle tbl (stateAfter tbl st (evs.take i)) ev).2
            | none => [])
      ∧ (∀ (s1 s2 s3 : String) (m1 m2 m3 : LightMapping) (e1 e2 e3 : Event),
          s1 ≠ s2 → s2 ≠ s3 → s1 ≠ s3 →
          switchOf e1.Topic = some s1 → switchOf e2.Topic = some s2 →
          switchOf e3.Topic = some s3 →
          GoMap.lookup tbl s1 = some m1 → GoMap.lookup tbl s2 = some m2 →
          GoMap.lookup tbl s3 = some m3 →
          e1.Payload = bytes "single" → e2.Payload = bytes "single" →
          e3.Payload = bytes "single" →
          (publishes (messageLoop tbl st [e1, e2, e3]).2).map Publish.Topic
            = [commandTopic m1.LightID, commandTopic m2.LightID, commandTopic m3.LightID]) := by
  constructor
  · induction evs generalizing st with
    | nil => rfl
    | cons e es ih =>
      rw [publishes_messageLoop_cons, ih (handle tbl st e).1]
      simp only [List.length_cons, List.range_succ_eq_map, List.flatMap_cons, List.flatMap_map]
      congr 1
      · simp [stateAfter]
      · congr 1
        funext i
        simp [stateAfter]
  · intro s1 s2 s3 m1 m2 m3 e1 e2 e3 _ _ _ h1 h2 h3 hm1 hm2 hm3 hp1 hp2 hp3
    simp only [publishes_messageLoop_cons, publishes_messageLoop_nil]
    rw [handle_single tbl _ e1 s1 m1 h1 hm1 hp1]
    simp only
    rw [handle_single tbl _ e2 s2 m2 h2 hm2 hp2]
    simp only
    rw [handle_single tbl _ e3 s3 m3 h3 hm3 hp3]
    simp [publishes]

/-- C8 at three switches mapped to three lights. -/
theorem fifo_processing_witness :
    (publishes (messageLoop
        (buildTable [⟨"sw1", "L1", none⟩, ⟨"sw2", "L2", some 80⟩, ⟨"sw3", "L3", none⟩]) []
        [actionEvent "sw2" "single", actionEvent "sw3" "single",
         actionEvent "sw1" "single"]).2).map Publish.Topic
      = [commandTopic "L2", commandTopic "L3", commandTopic "L1"] :=
  (fifo_processing
      (buildTable [⟨"sw1", "L1", none⟩, ⟨"sw2", "L2", some 80⟩, ⟨"sw3", "L3", none⟩]) [] []).2
    "sw2" "sw3" "sw1" ⟨"sw2", "L2", some 80⟩ ⟨"sw3", "L3", none⟩ ⟨"sw1", "L1", none⟩
    (actionEvent "sw2" "single") (actionEvent "sw3" "single") (actionEvent "sw1" "single")
    (by decide) (by decide) (by decide) (by decide) (by decide) (by decide)
    (by decide) (by decide) (by decide) (by decide) (by decide) (by decide)

theorem buildTable_concat (ms : List LightMapping) (m : LightMapping) :
    buildTable (ms ++ [m]) = GoMap.assign (buildTable ms) m.SwitchID m := by
  simp [buildTable, List.foldl_append]

theorem lookup_buildTable (ms : List LightMapping) (s : String) :
    GoMap.lookup (buildTable ms) s = (ms.filter (fun m => m.SwitchID = s)).getLast? := by
  induction ms using List.reverseRecOn with
  | nil => rfl
  | append_singleton ms m ih =>
    rw [buildTable_concat, List.filter_append]
    by_cases h : m.SwitchID = s
    · subst h
      simp [lookup_assign_self, List.filter]
    · rw [lookup_assign_ne _ _ _ _ (fun e => h e.symm), ih]
      simp [List.filter, h]

theorem nodup_keys_buildTable (ms : List LightMapping) :
    (GoMap.keys (buildTable ms)).Nodup := by
  induction ms using List.reverseRecOn with
  | nil => simp [buildTable, GoMap.keys]
  | append_singleton ms m ih =>
    rw [buildTable_concat]
    exact nodup_keys_assign _ _ _ ih

theorem mem_keys_buildTable (ms : List LightMapping) (k : String) :
    k ∈ GoMap.keys (buildTable ms) ↔ ∃ m ∈ ms, m.SwitchID = k := by
  induction ms using List.reverseRecOn with
  | nil => simp [buildTable, GoMap.keys]
  | append_singleton ms m ih =>
    rw [buildTable_concat, mem_keys_assign, ih]
    constructor
    · rintro (h | ⟨m2, hm2, h⟩)
      · exact ⟨m, by simp, h.symm⟩
      · exact ⟨m2, by simp [hm2], h⟩
    · rintro ⟨m2, hm2, h⟩
      rcases List.mem_append.1 hm2 with h2 | h2
      · exact Or.inr ⟨m2, h2, h⟩
      · simp only [List.mem_singleton] at h2
        subst h2
        exact Or.inl h.symm

/-- C9: looking a switch id up in the table built from a sequence of mappings
gives the last mapping of the sequence with that switch id, and nothing
exactly when no mapping of the sequence has it; the table has one entry for
each distinct switch id of the sequence. -/
theorem buildTable_last_wins (mappings : List LightMapping) (s : String) :
    GoMap.lookup (buildTable mappings) s
        = (mappings.filter (fun m => m.SwitchID = s)).getLast?
      ∧ (GoMap.lookup (buildTable mappings) s = none ↔ ∀ m ∈ mappings, m.SwitchID ≠ s)
      ∧ (GoMap.keys (buildTable mappings)).Nodup
      ∧ (∀ k : String, k ∈ GoMap.keys (buildTable mappings) ↔ ∃ m ∈ mappings, m.SwitchID = k)
      ∧ (buildTable mappings).length
          = ((mappings.map LightMapping.SwitchID).dedup).length := by
  refine ⟨lookup_buildTable mappings s, ?_, nodup_keys_buildTable mappings,
    mem_keys_buildTable mappings, ?_⟩
  · rw [lookup_eq_none_iff, mem_keys_buildTable]
    simp
  · have hperm : (GoMap.keys (buildTable mappings)).Perm
        ((mappings.map LightMapping.SwitchID).dedup) := by
      rw [List.perm_ext_iff_of_nodup (nodup_keys_buildTable mappings) (List.nodup_dedup _)]
      intro k
      rw [mem_keys_buildTable, List.mem_dedup, List.mem_map]
    have := hperm.length_eq
    simpa [GoMap.keys] using this

/-- C9 on a sequence in which `a` occurs twice: the later mapping is found,
`c` is not found, and the table has two entries. -/
theorem buildTable_last_wins_witness :
    GoMap.lookup (buildTable [⟨"a", "x", none⟩, ⟨"b", "y", none⟩, ⟨"a", "z", some 3⟩]) "a"
        = some ⟨"a", "z", some 3⟩
      ∧ GoMap.lookup (buildTable [⟨"a", "x", none⟩, ⟨"b", "y", none⟩, ⟨"a", "z", some 3⟩]) "c"
        = none
      ∧ (buildTable [⟨"a", "x", none⟩, ⟨"b", "y", none⟩, ⟨"a", "z", some 3⟩]).length = 2 := by
  have h := buildTable_last_wins [⟨"a", "x", none⟩, ⟨"b", "y", none⟩, ⟨"a", "z", some 3⟩] "a"
  have h2 := buildTable_last_wins [⟨"a", "x", none⟩, ⟨"b", "y", none⟩, ⟨"a", "z", some 3⟩] "c"
  refine ⟨h.1.trans (by decide), h2.1.trans (by decide), h.2.2.2.2.trans (by decide)⟩

theorem commandTopic_injective (a b : String) (h : commandTopic a = commandTopic b) : a = b := by
  unfold commandTopic at h
  have hd := congrArg String.data h
  simp only [String.data_append] at hd
  have h1 := List.append_cancel_right hd
  have h2 := List.append_cancel_left h1
  exact String.ext h2

theorem acceptedFor_iff (tbl : GoMap LightMapping) (L : String) (ev : Event) :
    acceptedFor tbl L ev = true ↔
      ∃ (sw : String) (m : LightMapping), switchOf ev.Topic = some sw
        ∧ GoMap.lookup tbl sw = some m ∧ m.LightID = L ∧ ev.Payload = bytes "single" := by
  unfold acceptedFor
  cases hs : switchOf ev.Topic with
  | none => simp
  | some sw =>
    cases hm : GoMap.lookup tbl sw with
    | none => simp [hm]
    | some m => simp [hm]

/-- An accepted press for the light `L` publishes one command, to the topic of
`L`, with the negation of the light's state, and stores that negation. -/
theorem handle_accepted (tbl : GoMap LightMapping) (st : GoMap Bool) (ev : Event) (L : String)
    (h : acceptedFor tbl L ev = true) :
    ∃ p : Publish, publishes (handle tbl st ev).2 = [p] ∧ p.Topic = commandTopic L
      ∧ p.state = some (JVal.str (if currentState st L then "OFF" else "ON"))
      ∧ (handle tbl st ev).1 = GoMap.assign st L (!currentState st L) := by
  obtain ⟨sw, m, hs, hm, hL, hp⟩ := (acceptedFor_iff tbl L ev).1 h
  subst hL
  rw [handle_single tbl st ev sw m hs hm hp]
  refine ⟨_, rfl, rfl, ?_, rfl⟩
  cases hc : currentState st m.LightID <;> cases hb : m.Brightness <;>
    simp [Publish.state, GoMap.lookup]

/-- Any other event publishes nothing to the topic of `L` and leaves the
state of `L` as it was. -/
theorem handle_not_accepted (tbl : GoMap LightMapping) (st : GoMap Bool) (ev : Event)
    (L : String) (h : acceptedFor tbl L ev = false) :
    (publishes (handle tbl st ev).2).filter (fun p => p.Topic = commandTopic L) = []
      ∧ currentState (handle tbl st ev).1 L = currentState st L := by
  cases hs : switchOf ev.Topic with
  | none => rw [handle_noMatch tbl st ev hs]; simp [publishes]
  | some sw =>
    cases hm : GoMap.lookup tbl sw with
    | none => rw [handle_unknownSwitch tbl st ev sw hs hm]; simp [publishes]
    | some m =>
      by_cases hp : ev.Payload = bytes "single"
      · have hne : m.LightID ≠ L := by
          intro hL
          have : acceptedFor tbl L ev = true :=
            (acceptedFor_iff tbl L ev).2 ⟨sw, m, hs, hm, hL, hp⟩
          rw [h] at this
          exact absurd this (by simp)
        rw [handle_single tbl st ev sw m hs hm hp]
        constructor
        · have ht : ¬ commandTopic m.LightID = commandTopic L :=
            fun e => hne (commandTopic_injective _ _ e)
          simp [publishes, ht]
        · exact currentState_assign_ne st m.LightID L _ (fun e => hne e.symm)
      · rw [handle_unknownAction tbl st ev sw m hs hm hp]; simp [publishes]

/-- From any light state, the commands published to the topic of `L` are as
many as the accepted presses for `L`, and they alternate, starting with the
negation of the state of `L`. -/
theorem commands_alternate (tbl : GoMap LightMapping) (L : String) (evs : List Event) :
    ∀ st : GoMap Bool,
      ((publishes (messageLoop tbl st evs).2).filter
          (fun p => p.Topic = commandTopic L)).length
        = (evs.filter (acceptedFor tbl L)).length
      ∧ ∀ (k : Nat) (p : Publish),
          ((publishes (messageLoop tbl st evs).2).filter
            (fun p => p.Topic = commandTopic L))[k]? = some p →
          p.state = some (JVal.str
            (if xor (decide (k % 2 = 1)) (currentState st L) then "OFF" else "ON")) := by
  induction evs with
  | nil => intro st; simp [publishes_messageLoop_nil]
  | cons e es ih =>
    intro st
    rw [publishes_messageLoop_cons, List.filter_append]
    cases ha : acceptedFor tbl L e with
    | true =>
      obtain ⟨p0, hpub, htop, hstate, hst⟩ := handle_accepted tbl st e L ha
      have ih1 := ih (handle tbl st e).1
      have hcur : currentState (handle tbl st e).1 L = !currentState st L := by
        rw [hst, currentState_assign_self]
      rw [hpub]
      simp only [List.filter, htop, decide_True, ha, List.singleton_append, List.length_cons]
      refine ⟨by rw [ih1.1], ?_⟩
      intro k p hk
      cases k with
      | zero =>
        simp only [List.getElem?_cons_zero, Option.some.injEq] at hk
        subst hk
        rw [hstate]
        cases currentState st L <;> simp
      | succ n =>
        simp only [List.getElem?_cons_succ] at hk
        rw [ih1.2 n p hk, hcur]
        have hmod : (n + 1) % 2 = 1 ↔ ¬ (n % 2 = 1) := by omega
        by_cases hn : n % 2 = 1
        · have hn1 : ¬ ((n + 1) % 2 = 1) := by omega
          cases currentState st L <;> simp [hn, hn1]
        · have hn1 : (n + 1) % 2 = 1 := by omega
          cases currentState st L <;> simp [hn, hn1]
    | false =>
      obtain ⟨hnil, hcur⟩ := handle_not_accepted tbl st e L ha
      have ih1 := ih (handle tbl st e).1
      rw [hnil]
      simp only [List.nil_append, List.filter, ha]
      refine ⟨ih1.1, ?_⟩
      intro k p hk
      rw [ih1.2 k p hk, hcur]

/-- C10: the toggle state belongs to the light.  Starting from the empty light
state, for every sequence of events and every light `L`, the commands
published to the command topic of `L` are as many as the accepted `single`
presses of all the switches mapped to `L`, and the k-th of them has state `ON`
for odd k and `OFF` for even k, whatever other events come in between; an
accepted press for `L` changes the stored state of no other light. -/
theorem toggle_keyed_by_light (tbl : GoMap LightMapping) (evs : List Event) (L : String) :
    ((publishes (messageLoop tbl [] evs).2).filter
        (fun p => p.Topic = commandTopic L)).length
        = (evs.filter (acceptedFor tbl L)).length
      ∧ (∀ (k : Nat) (p : Publish), 1 ≤ k →
          ((publishes (messageLoop tbl [] evs).2).filter
            (fun p => p.Topic = commandTopic L))[k - 1]? = some p →
          p.state = some (JVal.str (if k % 2 = 1 then "ON" else "OFF")))
      ∧ (∀ (st : GoMap Bool) (ev : Event) (L2 : String), acceptedFor tbl L ev = true →
          L2 ≠ L → GoMap.lookup (handle tbl st ev).1 L2 = GoMap.lookup st L2) := by
  have h := commands_alternate tbl L evs []
  refine ⟨h.1, ?_, ?_⟩
  · intro k p hk hp
    rw [h.2 (k - 1) p hp]
    have hc : currentState [] L = false := rfl
    rw [hc]
    by_cases hodd : k % 2 = 1
    · have : ¬ ((k - 1) % 2 = 1) := by omega
      simp [hodd, this]
    · have : (k - 1) % 2 = 1 := by omega
      simp [hodd, this]
  · intro st ev L2 ha hne
    obtain ⟨_, _, _, _, hst⟩ := handle_accepted tbl st ev L ha
    rw [hst, lookup_assign_ne _ _ _ _ hne]

/-- C10 with the two switches `sw1` and `sw2` mapped to the light `L1` and
`sw3` mapped to `L2`: the presses of `sw1` and `sw2` alternate `ON` and `OFF`
on `L1` between them, across a discarded event and a press for `L2`. -/
theorem toggle_keyed_by_light_witness :
    ((publishes (messageLoop
          (buildTable [⟨"sw1", "L1", some 80⟩, ⟨"sw2", "L1", none⟩, ⟨"sw3", "L2", none⟩]) []
          [actionEvent "sw1" "single", actionEvent "sw3" "single", actionEvent "sw2" "double",
           actionEvent "sw2" "single", actionEvent "sw1" "single"]).2).filter
        (fun p => p.Topic = commandTopic "L1")).map Publish.state
      = [some (JVal.str "ON"), some (JVal.str "OFF"), some (JVal.str "ON")]
    ∧ ((publishes (messageLoop
          (buildTable [⟨"sw1", "L1", some 80⟩, ⟨"sw2", "L1", none⟩, ⟨"sw3", "L2", none⟩]) []
          [actionEvent "sw1" "single", actionEvent "sw3" "single", actionEvent "sw2" "double",
           actionEvent "sw2" "single", actionEvent "sw1" "single"]).2).filter
        (fun p => p.Topic = commandTopic "L1")).length
      = ([actionEvent "sw1" "single", actionEvent "sw3" "single", actionEvent "sw2" "double",
           actionEvent "sw2" "single", actionEvent "sw1" "single"].filter
          (acceptedFor
            (buildTable [⟨"sw1", "L1", some 80⟩, ⟨"sw2", "L1", none⟩, ⟨"sw3", "L2", none⟩])
            "L1")).length :=
  ⟨by decide,
   (toggle_keyed_by_light
      (buildTable [⟨"sw1", "L1", some 80⟩, ⟨"sw2", "L1", none⟩, ⟨"sw3", "L2", none⟩])
      [actionEvent "sw1" "single", actionEvent "sw3" "single", actionEvent "sw2" "double",
       actionEvent "sw2" "single", actionEvent "sw1" "single"] "L1").1⟩

end HaLainn
